import Mathlib

/-!
Verification of the invoice-extraction pipeline of `invoice_manager`.

The repository has two near-duplicate extractor backends:
`ocr_tool.py` (OpenAI chat-completions) and `ocr_tool_anthropic.py`
(Anthropic completions, the one `main.py` imports), plus the
`set_invoice` post-processing loop in `main.py`.  The definitions below
are shallow embeddings of those Python functions: JSON objects become
association lists of `String × Value`, exceptions become `Except PyErr`,
and external collaborators (filesystem, OCR engine, HTTP backends, the
`dateutil` parser, Python's character classification) are modelled as
explicit oracle records or as functions whose doc comments mark them as
modelled from the spec.
-/

/-- A raised Python exception, carrying only its message: the code under
verification never branches on the exception class (both `except` clauses
of `ocr_tool_anthropic.get_payload` skip the document the same way). -/
inductive PyErr where
  | err : String → PyErr
deriving DecidableEq

/-- A JSON value as produced by `json.loads`: the shapes the pipeline
actually manipulates (strings, numbers, null, arrays, objects). -/
inductive Value where
  | str : String → Value
  | num : Int → Value
  | null : Value
  | arr : List Value → Value
  | obj : List (String × Value) → Value

/-- A parsed JSON object (Python dict): keys in insertion order. -/
abbrev Record := List (String × Value)

/-- Python `d.get(k)` / `d[k]`: the first binding of `k`, if any. -/
def getKey : Record → String → Option Value
  | [], _ => none
  | (k, v) :: rest, key => if k = key then some v else getKey rest key

/-- Python `d[k] = v`: replace the binding in place if present (dicts keep
insertion order), otherwise append a new binding at the end. -/
def setKey : Record → String → Value → Record
  | [], k, v => [(k, v)]
  | (k', v') :: rest, k, v =>
      if k' = k then (k, v) :: rest else (k', v') :: setKey rest k v

/-- The key sequence of a record, in insertion order. -/
def keys (r : Record) : List String := r.map Prod.fst

theorem getKey_setKey_self (r : Record) (k : String) (v : Value) :
    getKey (setKey r k v) k = some v := by
  induction r with
  | nil => simp [setKey, getKey]
  | cons kv rest ih =>
      obtain ⟨k', v'⟩ := kv
      by_cases h : k' = k <;> simp [setKey, getKey, h, ih]

theorem getKey_setKey_ne (r : Record) (k k' : String) (v : Value) (h : k ≠ k') :
    getKey (setKey r k v) k' = getKey r k' := by
  induction r with
  | nil => simp [setKey, getKey, h]
  | cons kv rest ih =>
      obtain ⟨k₀, v₀⟩ := kv
      by_cases h₀ : k₀ = k
      · subst h₀
        simp [setKey, getKey, h, Ne.symm h]
      · by_cases h₁ : k₀ = k' <;> simp [setKey, getKey, h₀, h₁, ih, Ne.symm h]

theorem keys_cons (k : String) (v : Value) (r : Record) :
    keys ((k, v) :: r) = k :: keys r := rfl

theorem keys_setKey_mem (r : Record) (k : String) (v : Value) (h : k ∈ keys r) :
    keys (setKey r k v) = keys r := by
  induction r with
  | nil => simp [keys] at h
  | cons kv rest ih =>
      obtain ⟨k₀, v₀⟩ := kv
      rw [keys_cons] at h
      by_cases h₀ : k₀ = k
      · simp [setKey, keys_cons, h₀]
      · have : k ∈ keys rest := by
          rcases List.mem_cons.mp h with h' | h'
          · exact absurd h'.symm h₀
          · exact h'
        simp [setKey, keys_cons, h₀, ih this]

theorem keys_setKey_not_mem (r : Record) (k : String) (v : Value) (h : k ∉ keys r) :
    keys (setKey r k v) = keys r ++ [k] := by
  induction r with
  | nil => simp [setKey, keys]
  | cons kv rest ih =>
      obtain ⟨k₀, v₀⟩ := kv
      rw [keys_cons] at h
      have hne : k₀ ≠ k := fun hk => h (by simp [hk])
      have : k ∉ keys rest := fun hk => h (by simp [hk])
      simp [setKey, keys_cons, hne, ih this]

theorem getKey_eq_none_of_not_mem (r : Record) (k : String) (h : k ∉ keys r) :
    getKey r k = none := by
  induction r with
  | nil => rfl
  | cons kv rest ih =>
      obtain ⟨k₀, v₀⟩ := kv
      rw [keys_cons] at h
      have hne : k₀ ≠ k := fun hk => h (by simp [hk])
      have : k ∉ keys rest := fun hk => h (by simp [hk])
      simp [getKey, hne, ih this]

/-!
Character classification and text normalization:

`ocr_tool.clean_text` is `re.sub(r"\s+", " ", text).strip()`.
`ocr_tool_anthropic.clean_text` additionally folds the OCR-confusable
characters `|`→`I`, `l`→`1`, `O`→`0` and drops non-printable characters,
in this order: collapse whitespace, substitute, filter printable, strip.
-/

/-- Modelled from the spec: Python's whitespace class (`\s` of `re` on
`str`, and `str.strip()` / `str.isspace()`): ASCII whitespace, the
C0 separators, NEL, NBSP and the Unicode space/line/paragraph
separators. -/
def pyIsSpace (c : Char) : Bool :=
  c.val == 9 || c.val == 10 || c.val == 11 || c.val == 12 || c.val == 13 ||
  c.val == 28 || c.val == 29 || c.val == 30 || c.val == 31 || c.val == 32 ||
  c.val == 133 || c.val == 160 || c.val == 0x1680 ||
  (0x2000 ≤ c.val && c.val ≤ 0x200a) ||
  c.val == 0x2028 || c.val == 0x2029 || c.val == 0x202f ||
  c.val == 0x205f || c.val == 0x3000

/-- Modelled from the spec: Python's `str.isprintable()` — false for
control characters (C0, DEL, C1) and for separator-category characters
other than the plain space `' '`, true elsewhere. -/
def pyIsPrintable (c : Char) : Bool :=
  !(c.val < 32 || c.val == 127 || (128 ≤ c.val && c.val ≤ 159) ||
    (pyIsSpace c && c != ' '))

/-- Modelled from the spec: Python's `str.lower()`, for the ASCII range
the sentinel comparisons of `standardize_date` exercise. -/
def lowerChar (c : Char) : Char :=
  if 'A' ≤ c ∧ c ≤ 'Z' then Char.ofNat (c.toNat + 32) else c

/-- `s.lower()` applied characterwise. -/
def pyLower (s : String) : String := ⟨s.data.map lowerChar⟩

/-- One pass of `re.sub(r"\s+", " ", ·)`: the flag says whether the
previous character was part of a whitespace run (in which case further
whitespace is absorbed into the single space already emitted). -/
def collapseAux : Bool → List Char → List Char
  | _, [] => []
  | inRun, c :: rest =>
      if pyIsSpace c then
        if inRun then collapseAux true rest
        else ' ' :: collapseAux true rest
      else c :: collapseAux false rest

/-- `re.sub(r"\s+", " ", s)`: every maximal whitespace run becomes one
space. -/
def collapseChars (l : List Char) : List Char := collapseAux false l

/-- Drop trailing whitespace (the right half of `str.strip()`). -/
def dropTrailWs : List Char → List Char
  | [] => []
  | c :: rest =>
      let r := dropTrailWs rest
      if r = [] && pyIsSpace c then [] else c :: r

/-- `str.strip()`: drop leading, then trailing, whitespace. -/
def stripChars (l : List Char) : List Char :=
  dropTrailWs (l.dropWhile pyIsSpace)

/-- `str.strip()` on strings. -/
def stripStr (s : String) : String := ⟨stripChars s.data⟩

/-- The OCR-confusable folding of `ocr_tool_anthropic.clean_text`:
`'|'→'I'`, `'l'→'1'`, `'O'→'0'`. -/
def replChar (c : Char) : Char :=
  if c = '|' then 'I' else if c = 'l' then '1' else if c = 'O' then '0' else c

/-- Character-level body of `ocr_tool.clean_text`. -/
def cleanAChars (l : List Char) : List Char := stripChars (collapseChars l)

/-- Character-level body of `ocr_tool_anthropic.clean_text` (after its
falsy-input short-circuit). -/
def cleanBChars (l : List Char) : List Char :=
  stripChars (((collapseChars l).map replChar).filter pyIsPrintable)

/-- `ocr_tool.clean_text`: collapse whitespace runs to single spaces and
strip the ends. -/
def clean_text (s : String) : String := ⟨cleanAChars s.data⟩

/-- `ocr_tool_anthropic.clean_text`: empty (falsy) input short-circuits
to `""`; otherwise collapse whitespace, fold confusables, keep only
printable characters, strip the ends. -/
def clean_text_a (s : String) : String :=
  if s = "" then "" else ⟨cleanBChars s.data⟩

/-- The head, if any, is not whitespace. -/
def headNotWs : List Char → Bool
  | [] => true
  | c :: _ => !pyIsSpace c

/-- The last element, if any, is not whitespace. -/
def lastNotWs : List Char → Bool
  | [] => true
  | [c] => !pyIsSpace c
  | _ :: c :: rest => lastNotWs (c :: rest)

/-- No two adjacent characters are both whitespace. -/
def noAdjWs : List Char → Bool
  | c :: d :: rest => !(pyIsSpace c && pyIsSpace d) && noAdjWs (d :: rest)
  | _ => true

/-- Every whitespace character is the plain space. -/
def wsOnlySpace (l : List Char) : Bool :=
  l.all fun c => !pyIsSpace c || c == ' '

/-!
Date parsing and standardization:

Both backends call `dateutil.parser.parse(date_str, dayfirst=True,
fuzzy=True)` and format the result with `strftime("%Y-%m-%d")`.  The
parser itself is an external library and is modelled below; everything
around it (sentinel handling, exception handling, the per-field loops)
is translated from the source.
-/

/-- A calendar date. -/
structure SDate where
  year : Nat
  month : Nat
  day : Nat
deriving DecidableEq

def isLeap (y : Nat) : Bool := (y % 4 == 0 && y % 100 != 0) || y % 400 == 0

def daysInMonth (y m : Nat) : Nat :=
  if m = 2 then (if isLeap y then 29 else 28)
  else if m = 4 ∨ m = 6 ∨ m = 9 ∨ m = 11 then 30
  else 31

/-- A date, if the components form a valid calendar date. -/
def mkDate (y m d : Nat) : Option SDate :=
  if 1 ≤ m ∧ m ≤ 12 ∧ 1 ≤ d ∧ d ≤ daysInMonth y m then some ⟨y, m, d⟩ else none

/-- Separators the modelled parser splits a date string on. -/
def isDateSep (c : Char) : Bool := c == '.' || c == '/' || c == '-' || c == ' ' || c == ','

/-- Split on separators, dropping empty fields; `acc` holds the current
field reversed. -/
def splitSepAux : List Char → List Char → List (List Char)
  | [], acc => if acc = [] then [] else [acc.reverse]
  | c :: rest, acc =>
      if isDateSep c then
        if acc = [] then splitSepAux rest []
        else acc.reverse :: splitSepAux rest []
      else splitSepAux rest (c :: acc)

def splitSep (l : List Char) : List (List Char) := splitSepAux l []

def digitVal (c : Char) : Option Nat :=
  if '0' ≤ c ∧ c ≤ '9' then some (c.toNat - '0'.toNat) else none

/-- The numeric value of an all-digit field. -/
def natOfDigits (l : List Char) : Option Nat :=
  match l with
  | [] => none
  | _ => l.foldl (fun acc? c => do
      let acc ← acc?
      let d ← digitVal c
      pure (acc * 10 + d)) (some 0)

/-- Modelled from the spec: `dateutil.parser.parse(s, dayfirst=True,
fuzzy=True)` — the external `dateutil` library, restricted to purely
numeric three-field dates with dot, slash, dash, comma or space
separators: a four-digit leading
field is a year (`YYYY M D`); otherwise the day-before-month reading
`D M YYYY` is preferred and the parser falls back to `M D YYYY` when the
day-first reading is not a valid calendar date. Anything else fails. -/
def parse_date (s : String) : Option SDate :=
  match splitSep s.data with
  | [a, b, c] => do
      let x ← natOfDigits a
      let y ← natOfDigits b
      let z ← natOfDigits c
      if a.length = 4 then mkDate x y z
      else if c.length = 4 then
        match mkDate z y x with
        | some d => some d
        | none => mkDate z x y
      else none
  | _ => none

def pad2 (n : Nat) : String := if n < 10 then "0" ++ toString n else toString n

/-- `strftime("%Y-%m-%d")`. -/
def formatDate (d : SDate) : String :=
  toString d.year ++ "-" ++ pad2 d.month ++ "-" ++ pad2 d.day

/-- `ocr_tool.standardize_date`: a truthy string is parsed (failures and
non-string arguments are swallowed by the `except` clause); everything
else yields the sentinel `"none"`.  The argument is the raw
`final_data.get(field)` value, `none` when the key is missing. -/
def standardize_date (v : Option Value) : String :=
  match v with
  | some (Value.str s) =>
      if s = "" then "none"
      else
        match parse_date s with
        | some d => formatDate d
        | none => "none"
  | _ => "none"

/-- `ocr_tool_anthropic.standardize_date`, parameterized by the date
parser so that non-invocation of the parser on sentinel inputs is
expressible.  Falsy or sentinel (`"none"`/`"null"`/`""`,
case-insensitively) input returns `None` before any parsing; a parse
failure also returns `None`; a truthy non-string raises
(`.lower()` on a non-string). -/
def standardize_date_a (p : String → Option SDate) (v : Value) :
    Except PyErr (Option String) :=
  match v with
  | Value.null => .ok none
  | Value.str s =>
      if s = "" ∨ pyLower s ∈ (["none", "null", ""] : List String) then .ok none
      else
        match p s with
        | some d => .ok (some (formatDate d))
        | none => .ok none
  | Value.num n => if n = 0 then .ok none else .error (PyErr.err "AttributeError: lower")
  | Value.arr [] => .ok none
  | Value.arr _ => .error (PyErr.err "AttributeError: lower")
  | Value.obj [] => .ok none
  | Value.obj _ => .error (PyErr.err "AttributeError: lower")

/-!
Record-level field normalization:
-/

/-- The `date_fields` list of `ocr_tool.get_payload`. -/
def dateFields : List String := ["dateInvoiced", "dateOfReceiving", "datePaid", "dueDate"]

/-- The per-field date loop of `ocr_tool.get_payload` followed by
`final_data["path"] = file_path`: each date field is overwritten with
`standardize_date(final_data.get(field))` and the source path is
attached. -/
def openaiRecord (fd : Record) (path : String) : Record :=
  let r := dateFields.foldl
    (fun r f => setKey r f (Value.str (standardize_date (getKey r f)))) fd
  setKey r "path" (Value.str path)

/-- Value stored back by the `dates` loop of
`ocr_tool_anthropic.get_payload`: `None` becomes JSON null. -/
def valueOfOpt : Option String → Value
  | none => Value.null
  | some s => Value.str s

/-- One iteration of the `dates` loop: standardize the entry's value and
store the result back (null for an absent result). -/
def standardizeEntry (kv : String × Value) : Except PyErr (String × Value) := do
  let v' ← standardize_date_a parse_date kv.2
  pure (kv.1, valueOfOpt v')

/-- The `if "dates" in final_data` loop of
`ocr_tool_anthropic.get_payload`: only when a top-level `dates` key is
present are its sub-fields standardized.  Iterating a non-dict truthy
value raises (`TypeError`/`AttributeError`), which the caller's `except`
turns into a skipped document; iterating an empty string or list visits
nothing. -/
def normalizeDatesA (r : Record) : Except PyErr Record :=
  match getKey r "dates" with
  | none => .ok r
  | some (Value.obj d) =>
      match d.mapM standardizeEntry with
      | .error e => .error e
      | .ok d' => .ok (setKey r "dates" (Value.obj d'))
  | some (Value.str s) =>
      if s = "" then .ok r else .error (PyErr.err "AttributeError: get")
  | some (Value.arr []) => .ok r
  | some (Value.arr _) => .error (PyErr.err "AttributeError: get")
  | some _ => .error (PyErr.err "TypeError: not iterable")

/-- The `_source` metadata object attached by
`ocr_tool_anthropic.get_payload`. -/
def sourceMeta (path mime_type : String) (isImage : Bool) : Value :=
  Value.obj [("path", Value.str path), ("mime_type", Value.str mime_type),
             ("extraction_method", Value.str (if isImage then "ocr" else "text"))]

/-- The post-parse normalization of `ocr_tool_anthropic.get_payload`:
standardize the `dates` sub-fields (if that key exists) and attach the
`_source` metadata. -/
def anthropicPost (fd : Record) (path mime_type : String) (isImage : Bool) :
    Except PyErr Record :=
  (normalizeDatesA fd).map fun r => setKey r "_source" (sourceMeta path mime_type isImage)

/-- True exactly when the Python comparison `value == "none"` is. -/
def isNoneStr : Value → Bool
  | Value.str s => s == "none"
  | _ => false

/-- One iteration of the `set_invoice` loop of `main.py` for key `k`:
`if value == "none": payload[k] = None` then
`if k == "paymentMethod" and payload[k] is None: payload[k] = "draft"`. -/
def normEntry (k : String) (v : Value) : Value :=
  let v1 := if isNoneStr v then Value.null else v
  if k = "paymentMethod" ∧ (match v1 with | Value.null => true | _ => false) = true then
    Value.str "draft"
  else v1

/-- The whole `for key, value in payload.items()` normalization loop of
`main.set_invoice`: keys are unique in a dict and each iteration touches
only the current key, so the loop is a map over the entries. -/
def set_invoice_normalize (payload : Record) : Record :=
  payload.map fun kv => (kv.1, normEntry kv.1 kv.2)

/-!
Text acquisition:

`extract_text_from_pdf` walks the pages of a document: a page whose
embedded text passes the backend's usability test contributes that text,
any other page contributes the page's OCR output (cleaned first in the
Anthropic backend); every contribution is followed by a newline.  The
PDF library and the OCR engine are external, so a page is modelled by
what they would return for it.
-/

/-- One PDF page, by what the external libraries yield for it:
`page.extract_text()` (`none` for an image-only page) and
`pytesseract.image_to_string` on its 300-DPI rendering. -/
structure PdfPage where
  embedded : Option String
  ocr : String

/-- `ocr_tool.extract_text_from_pdf`: a page with truthy embedded text
contributes it, otherwise its OCR output, each followed by `"\n"`. -/
def extract_text_from_pdf (pages : List PdfPage) : String :=
  pages.foldl
    (fun text pg =>
      match pg.embedded with
      | some t => if t ≠ "" then text ++ t ++ "\n" else text ++ pg.ocr ++ "\n"
      | none => text ++ pg.ocr ++ "\n")
    ""

/-- `ocr_tool_anthropic.extract_text_from_pdf`: embedded text is used
only when truthy and longer than 50 characters once stripped; otherwise
the page's OCR output is cleaned and used; each followed by `"\n"`. -/
def extract_text_from_pdf_a (pages : List PdfPage) : String :=
  pages.foldl
    (fun text pg =>
      match pg.embedded with
      | some t =>
          if t ≠ "" ∧ 50 < (stripStr t).length then text ++ t ++ "\n"
          else text ++ clean_text_a pg.ocr ++ "\n"
      | none => text ++ clean_text_a pg.ocr ++ "\n")
    ""

/-- The contribution of one page to the OpenAI-backend transcript. -/
def pageContrib (pg : PdfPage) : String :=
  (match pg.embedded with
   | some t => if t ≠ "" then t else pg.ocr
   | none => pg.ocr) ++ "\n"

/-- The contribution of one page to the Anthropic-backend transcript. -/
def pageContribA (pg : PdfPage) : String :=
  (match pg.embedded with
   | some t =>
      if t ≠ "" ∧ 50 < (stripStr t).length then t else clean_text_a pg.ocr
   | none => clean_text_a pg.ocr) ++ "\n"

/-!
The pipeline drivers (`get_payload`):
-/

/-- `mime_type.split("/")` destructured into exactly two names;
Python raises `ValueError` when the unpacking arity does not match. -/
def splitOnSlash (l : List Char) (acc : List Char) : List (List Char) :=
  match l with
  | [] => [acc.reverse]
  | c :: rest =>
      if c = '/' then acc.reverse :: splitOnSlash rest []
      else splitOnSlash rest (c :: acc)

def splitMime (s : String) : Except PyErr (String × String) :=
  match splitOnSlash s.data [] with
  | [a, b] => .ok (⟨a⟩, ⟨b⟩)
  | _ => .error (PyErr.err "ValueError: unpack")

/-- `re.search(r'{[\s\S]*}', s)`: the span from the first opening brace
to the last closing brace, when the latter follows the former. -/
def braceOpen : Char := Char.ofNat 123

def braceClose : Char := Char.ofNat 125

def dropUntilOpenBrace : List Char → Option (List Char)
  | [] => none
  | c :: rest => if c = braceOpen then some (c :: rest) else dropUntilOpenBrace rest

def findJsonSpan (s : String) : Option String := do
  let t ← dropUntilOpenBrace s.data
  let r := t.reverse.dropWhile fun c => !(c = braceClose)
  match r with
  | [] => none
  | _ => some ⟨r.reverse⟩

/-- What the OpenAI chat-completions endpoint returns:
`response.status_code`, and `response.json()["choices"][0]["message"]`
(whose extraction can itself raise on a malformed body), carrying the
`function_call` arguments string when there is one. -/
structure OResp where
  status : Nat
  message : Except PyErr (Option String)

/-- The external collaborators of `ocr_tool.get_payload`, as oracles per
file path (`magic` MIME detection, `pdfplumber`+`pytesseract` page
contents, image OCR) and per request (`requests.post` keyed by the
cleaned transcript embedded in the prompt, `json.loads` of the returned
arguments). An `Except.error` is a raised Python exception. -/
structure OEnv where
  mime : String → Except PyErr String
  pdfPages : String → Except PyErr (List PdfPage)
  imageText : String → Except PyErr String
  post : String → Except PyErr OResp
  parseJson : String → Except PyErr Record

/-- The `text = None` / `if pdf` / `elif image` branch of
`ocr_tool.get_payload`: `.ok none` models `text` staying `None` for an
unsupported type. -/
def acquireTextO (env : OEnv) (path ftype fformat : String) :
    Except PyErr (Option String) :=
  if fformat = "pdf" then
    (env.pdfPages path).map fun pages => some (extract_text_from_pdf pages)
  else if ftype = "image" then
    (env.imageText path).map fun t => some t
  else .ok none

/-- The body of `ocr_tool.get_payload`'s loop for one path.  No
`try`/`except` surrounds it in the source: every `Except.error` here
propagates out of the whole batch.  `.ok none` is the `continue` /
log-and-skip outcome; `.ok (some r)` appends `r` to the results. -/
def processDoc (env : OEnv) (path : String) : Except PyErr (Option Record) := do
  let mt ← env.mime path
  let pr ← splitMime mt
  match ← acquireTextO env path pr.1 pr.2 with
  | none => pure none
  | some t =>
      if t = "" then pure none
      else do
        let resp ← env.post (clean_text t)
        if resp.status = 200 then do
          let fc ← resp.message
          match fc with
          | some args => do
              let fd ← env.parseJson args
              pure (some (openaiRecord fd path))
          | none => pure none
        else pure none

/-- The accumulating loop of `ocr_tool.get_payload`: a raised exception
aborts the whole batch (there is no per-document handler). -/
def get_payload_loop (env : OEnv) (acc : List Record) :
    List String → Except PyErr (List Record)
  | [] => .ok acc
  | p :: rest =>
      match processDoc env p with
      | .error e => .error e
      | .ok none => get_payload_loop env acc rest
      | .ok (some r) => get_payload_loop env (acc ++ [r]) rest

/-- `ocr_tool.get_payload`. -/
def get_payload (env : OEnv) (paths : List String) : Except PyErr (List Record) :=
  get_payload_loop env [] paths

/-- What the Anthropic completions endpoint returns: the `completion`
attribute when the response has one. -/
structure AResp where
  completion : Option String

/-- The external collaborators of `ocr_tool_anthropic.get_payload`,
keyed like `OEnv`; the completion oracle is keyed by the cleaned
transcript embedded in the prompt. -/
structure AEnv where
  mime : String → Except PyErr String
  pdfPages : String → Except PyErr (List PdfPage)
  imageText : String → Except PyErr String
  completion : String → Except PyErr AResp
  parseJson : String → Except PyErr Record

/-- The acquisition branch of `ocr_tool_anthropic.get_payload`:
`.ok none` is the unsupported-type `continue`. -/
def acquireText (env : AEnv) (path ftype fformat : String) :
    Except PyErr (Option String) :=
  if fformat = "pdf" then
    (env.pdfPages path).map fun pages => some (extract_text_from_pdf_a pages)
  else if ftype = "image" then
    (env.imageText path).map fun t => some (clean_text_a t)
  else .ok none

/-- `ocr_tool_anthropic.get_payload` after a transcript is acquired:
skip when the stripped transcript is empty, call the backend, search the
completion for a JSON span, parse it, normalize dates and attach the
source metadata. -/
def afterText (env : AEnv) (path mt : String) (isImage : Bool) (text : String) :
    Except PyErr (Option Record) :=
  if stripStr text = "" then .ok none
  else do
    let resp ← env.completion (clean_text_a text)
    match resp.completion with
    | none => pure none
    | some comp =>
        match findJsonSpan comp with
        | none => pure none
        | some jstr => do
            let fd ← env.parseJson jstr
            let out ← anthropicPost fd path mt isImage
            pure (some out)

/-- The body of `ocr_tool_anthropic.get_payload`'s loop for one path,
before its `try`/`except`: the handler is applied in
`get_payload_a_loop` below. -/
def processDocA (env : AEnv) (path : String) : Except PyErr (Option Record) := do
  let mt ← env.mime path
  let pr ← splitMime mt
  match ← acquireText env path pr.1 pr.2 with
  | none => pure none
  | some text => afterText env path mt (pr.1 == "image") text

/-- The accumulating loop of `ocr_tool_anthropic.get_payload`: both
`except` clauses log and fall through to the next path, so an exception
never escapes one document. -/
def get_payload_a_loop (env : AEnv) (acc : List Record) :
    List String → List Record
  | [] => acc
  | p :: rest =>
      match processDocA env p with
      | .ok (some r) => get_payload_a_loop env (acc ++ [r]) rest
      | _ => get_payload_a_loop env acc rest

/-- `ocr_tool_anthropic.get_payload`: a missing API key raises
`ValueError` before any document is touched; otherwise the per-document
loop runs with full failure isolation. -/
def get_payload_a (keyPresent : Bool) (env : AEnv) (paths : List String) :
    Except PyErr (List Record) :=
  if keyPresent then .ok (get_payload_a_loop env [] paths)
  else .error (PyErr.err "ANTHROPIC_API_KEY not found in environment variables")

/-- The record a path contributes to the Anthropic batch, if any. -/
def successRecordA (env : AEnv) (p : String) : Option Record :=
  match processDocA env p with
  | .ok (some r) => some r
  | _ => none

/-- The record a path contributes to the OpenAI batch when its
processing does not raise. -/
def successRecord (env : OEnv) (p : String) : Option Record :=
  match processDoc env p with
  | .ok (some r) => some r
  | _ => none

/-!
Lemmas about whitespace collapsing and stripping:
-/

theorem noAdjWs_tail (c : Char) (t : List Char) (h : noAdjWs (c :: t) = true) :
    noAdjWs t = true := by
  cases t with
  | nil => rfl
  | cons d r =>
      simp only [noAdjWs, Bool.and_eq_true] at h
      exact h.2

theorem noAdjWs_cons_of_head_not (c : Char) (t : List Char)
    (h : pyIsSpace c = false) (ht : noAdjWs t = true) : noAdjWs (c :: t) = true := by
  cases t with
  | nil => rfl
  | cons d r => simp [noAdjWs, h, ht]

theorem noAdjWs_cons_of_headNot (c : Char) (t : List Char)
    (h : headNotWs t = true) (ht : noAdjWs t = true) : noAdjWs (c :: t) = true := by
  cases t with
  | nil => rfl
  | cons d r =>
      have : pyIsSpace d = false := by simpa [headNotWs] using h
      simp [noAdjWs, this, ht]

theorem headNotWs_of_noAdjWs_ws (c : Char) (t : List Char)
    (h : noAdjWs (c :: t) = true) (hc : pyIsSpace c = true) : headNotWs t = true := by
  cases t with
  | nil => rfl
  | cons d r =>
      simp [noAdjWs, hc] at h
      simp [headNotWs, h.1]

theorem wsOnlySpace_cons (c : Char) (l : List Char) :
    wsOnlySpace (c :: l) = ((!pyIsSpace c || c == ' ') && wsOnlySpace l) := by
  simp [wsOnlySpace]

theorem wsOnlySpace_collapseAux (b : Bool) (l : List Char) :
    wsOnlySpace (collapseAux b l) = true := by
  induction l generalizing b with
  | nil => rfl
  | cons c rest ih =>
      cases hc : pyIsSpace c with
      | true =>
          cases b with
          | true => simpa [collapseAux, hc] using ih true
          | false => simp [collapseAux, hc, wsOnlySpace_cons, ih true]
      | false => simp [collapseAux, hc, wsOnlySpace_cons, ih false]

theorem noAdj_head_collapseAux (b : Bool) (l : List Char) :
    noAdjWs (collapseAux b l) = true ∧
      (b = true → headNotWs (collapseAux b l) = true) := by
  induction l generalizing b with
  | nil => exact ⟨rfl, fun _ => rfl⟩
  | cons c rest ih =>
      cases hc : pyIsSpace c with
      | true =>
          cases b with
          | true => simpa [collapseAux, hc] using ih true
          | false =>
              refine ⟨?_, fun hb => by cases hb⟩
              have h1 := (ih true).1
              have h2 := (ih true).2 rfl
              simpa [collapseAux, hc] using noAdjWs_cons_of_headNot ' ' _ h2 h1
      | false =>
          refine ⟨?_, fun _ => by simp [collapseAux, hc, headNotWs]⟩
          simpa [collapseAux, hc] using noAdjWs_cons_of_head_not c _ hc (ih false).1

theorem collapseAux_true_eq_of_head (l : List Char) (h : headNotWs l = true) :
    collapseAux true l = collapseAux false l := by
  cases l with
  | nil => rfl
  | cons c rest =>
      have : pyIsSpace c = false := by simpa [headNotWs] using h
      simp [collapseAux, this]

theorem collapseAux_eq_self (l : List Char)
    (h1 : wsOnlySpace l = true) (h2 : noAdjWs l = true) :
    collapseAux false l = l := by
  induction l with
  | nil => rfl
  | cons c rest ih =>
      rw [wsOnlySpace_cons] at h1
      simp only [Bool.and_eq_true] at h1
      have h1c := h1.1
      have h1r := h1.2
      have h2r := noAdjWs_tail c rest h2
      cases hc : pyIsSpace c with
      | false => simp [collapseAux, hc, ih h1r h2r]
      | true =>
          have hcs : c = ' ' := by
            simp only [Bool.or_eq_true] at h1c
            rcases h1c with h | h
            · simp [hc] at h
            · exact beq_iff_eq.mp h
          have hhead : headNotWs rest = true := headNotWs_of_noAdjWs_ws c rest h2 hc
          subst hcs
          simp [collapseAux, hc, collapseAux_true_eq_of_head rest hhead, ih h1r h2r]

theorem headNotWs_dropWhile (l : List Char) :
    headNotWs (l.dropWhile pyIsSpace) = true := by
  induction l with
  | nil => rfl
  | cons c rest ih =>
      cases hc : pyIsSpace c with
      | true => simpa [List.dropWhile_cons, hc] using ih
      | false => simp [List.dropWhile_cons, hc, headNotWs]

theorem noAdjWs_dropWhile (l : List Char) (h : noAdjWs l = true) :
    noAdjWs (l.dropWhile pyIsSpace) = true := by
  induction l with
  | nil => rfl
  | cons c rest ih =>
      cases hc : pyIsSpace c with
      | true => simpa [List.dropWhile_cons, hc] using ih (noAdjWs_tail c rest h)
      | false => simpa [List.dropWhile_cons, hc] using h

theorem dropWhile_eq_self_of_head (l : List Char) (h : headNotWs l = true) :
    l.dropWhile pyIsSpace = l := by
  cases l with
  | nil => rfl
  | cons c rest =>
      have : pyIsSpace c = false := by simpa [headNotWs] using h
      simp [List.dropWhile_cons, this]

theorem mem_dropWhile_imp (c : Char) (l : List Char)
    (h : c ∈ l.dropWhile pyIsSpace) : c ∈ l :=
  (List.dropWhile_sublist _).mem h

theorem dropTrailWs_shape (c : Char) (l : List Char) :
    dropTrailWs (c :: l) = [] ∨ dropTrailWs (c :: l) = c :: dropTrailWs l := by
  simp only [dropTrailWs]
  split
  · exact Or.inl rfl
  · exact Or.inr rfl

theorem lastNotWs_cons (c : Char) (t : List Char) (h : t ≠ []) :
    lastNotWs (c :: t) = lastNotWs t := by
  cases t with
  | nil => exact absurd rfl h
  | cons d r => rfl

theorem lastNotWs_dropTrailWs (l : List Char) : lastNotWs (dropTrailWs l) = true := by
  induction l with
  | nil => rfl
  | cons c rest ih =>
      simp only [dropTrailWs]
      split
      · rfl
      · rename_i hcond
        cases hr : dropTrailWs rest with
        | nil =>
            rw [hr] at hcond
            have hc : pyIsSpace c = false := by simpa using hcond
            simp [lastNotWs, hc]
        | cons d r =>
            rw [lastNotWs_cons c (d :: r) (by simp), ← hr]
            exact ih

theorem headNotWs_dropTrailWs (l : List Char) (h : headNotWs l = true) :
    headNotWs (dropTrailWs l) = true := by
  cases l with
  | nil => rfl
  | cons c rest =>
      have hc : pyIsSpace c = false := by simpa [headNotWs] using h
      simp only [dropTrailWs]
      split
      · rfl
      · simp [headNotWs, hc]

theorem noAdjWs_dropTrailWs (l : List Char) (h : noAdjWs l = true) :
    noAdjWs (dropTrailWs l) = true := by
  induction l with
  | nil => rfl
  | cons c rest ih =>
      simp only [dropTrailWs]
      split
      · rfl
      · have hrest := ih (noAdjWs_tail c rest h)
        cases hc : pyIsSpace c with
        | false => exact noAdjWs_cons_of_head_not c _ hc hrest
        | true =>
            have hhead : headNotWs rest = true := headNotWs_of_noAdjWs_ws c rest h hc
            exact noAdjWs_cons_of_headNot c _ (headNotWs_dropTrailWs rest hhead) hrest

theorem mem_dropTrailWs_imp (c : Char) (l : List Char)
    (h : c ∈ dropTrailWs l) : c ∈ l := by
  induction l with
  | nil => simp [dropTrailWs] at h
  | cons d rest ih =>
      simp only [dropTrailWs] at h
      split at h
      · simp at h
      · rcases List.mem_cons.mp h with h' | h'
        · simp [h']
        · exact List.mem_cons_of_mem d (ih h')

theorem dropTrailWs_eq_self (l : List Char) (h : lastNotWs l = true) :
    dropTrailWs l = l := by
  induction l with
  | nil => rfl
  | cons c rest ih =>
      cases rest with
      | nil =>
          have hc : pyIsSpace c = false := by simpa [lastNotWs] using h
          simp [dropTrailWs, hc]
      | cons d r =>
          rw [lastNotWs_cons c (d :: r) (by simp)] at h
          have hd := ih h
          have hgoal : dropTrailWs (c :: d :: r) =
              (if (decide (dropTrailWs (d :: r) = []) && pyIsSpace c) = true then []
               else c :: dropTrailWs (d :: r)) := rfl
          rw [hgoal, hd]
          simp

theorem headNotWs_stripChars (l : List Char) : headNotWs (stripChars l) = true :=
  headNotWs_dropTrailWs _ (headNotWs_dropWhile l)

theorem lastNotWs_stripChars (l : List Char) : lastNotWs (stripChars l) = true :=
  lastNotWs_dropTrailWs _

theorem noAdjWs_stripChars (l : List Char) (h : noAdjWs l = true) :
    noAdjWs (stripChars l) = true :=
  noAdjWs_dropTrailWs _ (noAdjWs_dropWhile l h)

theorem mem_stripChars_imp (c : Char) (l : List Char) (h : c ∈ stripChars l) :
    c ∈ l :=
  mem_dropWhile_imp c l (mem_dropTrailWs_imp c _ h)

theorem stripChars_eq_self (l : List Char)
    (h1 : headNotWs l = true) (h2 : lastNotWs l = true) : stripChars l = l := by
  unfold stripChars
  rw [dropWhile_eq_self_of_head l h1, dropTrailWs_eq_self l h2]

theorem wsOnlySpace_of_subset (l l' : List Char)
    (hsub : ∀ c ∈ l', c ∈ l) (h : wsOnlySpace l = true) :
    wsOnlySpace l' = true := by
  rw [wsOnlySpace, List.all_eq_true]
  intro c hc
  exact (List.all_eq_true.mp h) c (hsub c hc)

/-!
Lemmas about the confusable-character folding:
-/

theorem pyIsSpace_replChar (c : Char) : pyIsSpace (replChar c) = pyIsSpace c := by
  by_cases h1 : c = '|'
  · subst h1; decide
  by_cases h2 : c = 'l'
  · subst h2; decide
  by_cases h3 : c = 'O'
  · subst h3; decide
  simp [replChar, h1, h2, h3]

theorem replChar_idem (c : Char) : replChar (replChar c) = replChar c := by
  by_cases h1 : c = '|'
  · subst h1; decide
  by_cases h2 : c = 'l'
  · subst h2; decide
  by_cases h3 : c = 'O'
  · subst h3; decide
  simp [replChar, h1, h2, h3]

theorem replChar_not_confusable (c : Char) :
    replChar c ≠ '|' ∧ replChar c ≠ 'l' ∧ replChar c ≠ 'O' := by
  by_cases h1 : c = '|'
  · subst h1; decide
  by_cases h2 : c = 'l'
  · subst h2; decide
  by_cases h3 : c = 'O'
  · subst h3; decide
  simp [replChar, h1, h2, h3]

theorem pyIsPrintable_replChar (c : Char) (h : pyIsPrintable c = true) :
    pyIsPrintable (replChar c) = true := by
  by_cases h1 : c = '|'
  · subst h1; decide
  by_cases h2 : c = 'l'
  · subst h2; decide
  by_cases h3 : c = 'O'
  · subst h3; decide
  simpa [replChar, h1, h2, h3] using h

theorem wsOnlySpace_map_repl (l : List Char) (h : wsOnlySpace l = true) :
    wsOnlySpace (l.map replChar) = true := by
  rw [wsOnlySpace, List.all_eq_true]
  intro c hc
  rcases List.mem_map.mp hc with ⟨d, hd, rfl⟩
  have hp := (List.all_eq_true.mp h) d hd
  cases hws : pyIsSpace d with
  | false => simp [pyIsSpace_replChar, hws]
  | true =>
      have : d = ' ' := by
        simp only [Bool.or_eq_true, hws] at hp
        rcases hp with h' | h'
        · simp at h'
        · exact beq_iff_eq.mp h'
      subst this
      decide

theorem noAdjWs_map_repl (l : List Char) (h : noAdjWs l = true) :
    noAdjWs (l.map replChar) = true := by
  induction l with
  | nil => rfl
  | cons c rest ih =>
      cases rest with
      | nil => rfl
      | cons d r =>
          simp only [noAdjWs, Bool.and_eq_true] at h
          have := ih h.2
          simp only [List.map_cons] at this ⊢
          simp only [noAdjWs, Bool.and_eq_true]
          refine ⟨?_, this⟩
          simpa [pyIsSpace_replChar] using h.1

theorem mem_collapseAux (c : Char) (b : Bool) (l : List Char)
    (h : c ∈ collapseAux b l) : c ∈ l ∨ c = ' ' := by
  induction l generalizing b with
  | nil => simp [collapseAux] at h
  | cons d rest ih =>
      cases hd : pyIsSpace d with
      | true =>
          cases b with
          | true =>
              rcases ih true (by simpa [collapseAux, hd] using h) with h' | h'
              · exact Or.inl (List.mem_cons_of_mem d h')
              · exact Or.inr h'
          | false =>
              rw [collapseAux] at h
              simp only [hd, if_true] at h
              rcases List.mem_cons.mp h with h' | h'
              · exact Or.inr h'
              · rcases ih true h' with h'' | h''
                · exact Or.inl (List.mem_cons_of_mem d h'')
                · exact Or.inr h''
      | false =>
          rw [collapseAux] at h
          simp only [hd] at h
          rcases List.mem_cons.mp h with h' | h'
          · exact Or.inl (by simp [h'])
          · rcases ih false h' with h'' | h''
            · exact Or.inl (List.mem_cons_of_mem d h'')
            · exact Or.inr h''

theorem map_replChar_eq_self (l : List Char) (h : ∀ c ∈ l, replChar c = c) :
    l.map replChar = l := by
  induction l with
  | nil => rfl
  | cons c rest ih =>
      simp only [List.map_cons]
      rw [h c (by simp), ih fun d hd => h d (List.mem_cons_of_mem c hd)]

/-!
Idempotence and output invariants of the two text normalizers:
-/

theorem wsOnlySpace_cleanAChars (l : List Char) :
    wsOnlySpace (cleanAChars l) = true :=
  wsOnlySpace_of_subset (collapseChars l) _
    (fun c hc => mem_stripChars_imp c _ hc) (wsOnlySpace_collapseAux false l)

theorem noAdjWs_cleanAChars (l : List Char) : noAdjWs (cleanAChars l) = true :=
  noAdjWs_stripChars _ (noAdj_head_collapseAux false l).1

theorem cleanAChars_idem (l : List Char) :
    cleanAChars (cleanAChars l) = cleanAChars l := by
  have h1 : collapseChars (cleanAChars l) = cleanAChars l :=
    collapseAux_eq_self _ (wsOnlySpace_cleanAChars l) (noAdjWs_cleanAChars l)
  have h2 : stripChars (cleanAChars l) = cleanAChars l :=
    stripChars_eq_self _ (headNotWs_stripChars _) (lastNotWs_stripChars _)
  calc cleanAChars (cleanAChars l)
      = stripChars (collapseChars (cleanAChars l)) := rfl
    _ = stripChars (cleanAChars l) := by rw [h1]
    _ = cleanAChars l := h2

theorem cleanBChars_printable (l : List Char) :
    (cleanBChars l).all pyIsPrintable = true := by
  rw [List.all_eq_true]
  intro c hc
  have hc' : c ∈ stripChars (((collapseChars l).map replChar).filter pyIsPrintable) := hc
  exact List.of_mem_filter (mem_stripChars_imp c _ hc')

theorem cleanBChars_wsOnlySpace (l : List Char) :
    wsOnlySpace (cleanBChars l) = true := by
  refine wsOnlySpace_of_subset ((collapseChars l).map replChar) _ ?_ ?_
  · intro c hc
    exact List.mem_of_mem_filter (mem_stripChars_imp c _ hc)
  · exact wsOnlySpace_map_repl _ (wsOnlySpace_collapseAux false l)

theorem cleanBChars_replFixed (l : List Char) :
    ∀ c ∈ cleanBChars l, replChar c = c := by
  intro c hc
  have : c ∈ (collapseChars l).map replChar :=
    List.mem_of_mem_filter (mem_stripChars_imp c _ hc)
  rcases List.mem_map.mp this with ⟨d, _, rfl⟩
  exact replChar_idem d

theorem cleanBChars_eq_self_of (l : List Char)
    (hws : wsOnlySpace l = true) (hadj : noAdjWs l = true)
    (hrep : ∀ c ∈ l, replChar c = c) (hpr : l.all pyIsPrintable = true)
    (hh : headNotWs l = true) (hl : lastNotWs l = true) :
    cleanBChars l = l := by
  unfold cleanBChars
  rw [show collapseChars l = l from collapseAux_eq_self l hws hadj,
      map_replChar_eq_self l hrep,
      List.filter_eq_self.mpr (fun c hc => (List.all_eq_true.mp hpr) c hc),
      stripChars_eq_self l hh hl]

theorem cleanBChars_idem_of_printable (l : List Char)
    (h : l.all pyIsPrintable = true) :
    cleanBChars (cleanBChars l) = cleanBChars l := by
  have hcoll_pr : ∀ c ∈ (collapseChars l).map replChar, pyIsPrintable c = true := by
    intro c hc
    rcases List.mem_map.mp hc with ⟨d, hd, rfl⟩
    rcases mem_collapseAux d false l hd with hd' | hd'
    · exact pyIsPrintable_replChar d ((List.all_eq_true.mp h) d hd')
    · subst hd'; decide
  have hfilter : ((collapseChars l).map replChar).filter pyIsPrintable
      = (collapseChars l).map replChar := List.filter_eq_self.mpr hcoll_pr
  have hadj : noAdjWs (cleanBChars l) = true := by
    unfold cleanBChars
    rw [hfilter]
    exact noAdjWs_stripChars _ (noAdjWs_map_repl _ (noAdj_head_collapseAux false l).1)
  exact cleanBChars_eq_self_of _ (cleanBChars_wsOnlySpace l) hadj
    (cleanBChars_replFixed l) (cleanBChars_printable l)
    (headNotWs_stripChars _) (lastNotWs_stripChars _)

/-!
Lemmas about the pipeline drivers:
-/

theorem strAppend_assoc (a b c : String) : a ++ b ++ c = a ++ (b ++ c) := by
  apply String.ext
  simp [String.data_append, List.append_assoc]

/-- Concatenation of a list of strings, in order. -/
def concatStrings : List String → String
  | [] => ""
  | s :: rest => s ++ concatStrings rest

theorem extract_text_from_pdf_aux (pages : List PdfPage) (init : String) :
    pages.foldl
      (fun text pg =>
        match pg.embedded with
        | some t => if t ≠ "" then text ++ t ++ "\n" else text ++ pg.ocr ++ "\n"
        | none => text ++ pg.ocr ++ "\n")
      init = init ++ concatStrings (pages.map pageContrib) := by
  induction pages generalizing init with
  | nil => simp [concatStrings]
  | cons pg rest ih =>
      have hbody : (match pg.embedded with
          | some t => if t ≠ "" then init ++ t ++ "\n" else init ++ pg.ocr ++ "\n"
          | none => init ++ pg.ocr ++ "\n") = init ++ pageContrib pg := by
        unfold pageContrib
        cases hemb : pg.embedded with
        | none => rw [strAppend_assoc]
        | some t =>
            by_cases ht : t = ""
            · simp [ht, strAppend_assoc]
            · simp [ht, strAppend_assoc]
      simp only [List.foldl_cons, List.map_cons, concatStrings, hbody, ih]
      rw [strAppend_assoc]

theorem extract_text_from_pdf_eq (pages : List PdfPage) :
    extract_text_from_pdf pages = concatStrings (pages.map pageContrib) := by
  have := extract_text_from_pdf_aux pages ""
  rw [extract_text_from_pdf, this, String.empty_append]

theorem extract_text_from_pdf_a_aux (pages : List PdfPage) (init : String) :
    pages.foldl
      (fun text pg =>
        match pg.embedded with
        | some t =>
            if t ≠ "" ∧ 50 < (stripStr t).length then text ++ t ++ "\n"
            else text ++ clean_text_a pg.ocr ++ "\n"
        | none => text ++ clean_text_a pg.ocr ++ "\n")
      init = init ++ concatStrings (pages.map pageContribA) := by
  induction pages generalizing init with
  | nil => simp [concatStrings]
  | cons pg rest ih =>
      have hbody : (match pg.embedded with
          | some t =>
              if t ≠ "" ∧ 50 < (stripStr t).length then init ++ t ++ "\n"
              else init ++ clean_text_a pg.ocr ++ "\n"
          | none => init ++ clean_text_a pg.ocr ++ "\n") = init ++ pageContribA pg := by
        unfold pageContribA
        cases hemb : pg.embedded with
        | none => rw [strAppend_assoc]
        | some t =>
            by_cases ht : t ≠ "" ∧ 50 < (stripStr t).length
            · simp [ht, strAppend_assoc]
            · simp [ht, strAppend_assoc]
      simp only [List.foldl_cons, List.map_cons, concatStrings, hbody, ih]
      rw [strAppend_assoc]

theorem extract_text_from_pdf_a_eq (pages : List PdfPage) :
    extract_text_from_pdf_a pages = concatStrings (pages.map pageContribA) := by
  have := extract_text_from_pdf_a_aux pages ""
  rw [extract_text_from_pdf_a, this, String.empty_append]

theorem get_payload_a_loop_eq (env : AEnv) (paths : List String) (acc : List Record) :
    get_payload_a_loop env acc paths = acc ++ paths.filterMap (successRecordA env) := by
  induction paths generalizing acc with
  | nil => simp [get_payload_a_loop]
  | cons p rest ih =>
      have step : get_payload_a_loop env acc (p :: rest) =
          match processDocA env p with
          | .ok (some r) => get_payload_a_loop env (acc ++ [r]) rest
          | _ => get_payload_a_loop env acc rest := rfl
      rw [step]
      cases h : processDocA env p with
      | error e => simp [List.filterMap_cons, successRecordA, h, ih]
      | ok o =>
          cases o with
          | none => simp [List.filterMap_cons, successRecordA, h, ih]
          | some r => simp [List.filterMap_cons, successRecordA, h, ih acc, ih (acc ++ [r])]

/-- Whether an `Except` value is a normal return. -/
def isOkE {α : Type} (e : Except PyErr α) : Bool :=
  match e with
  | .ok _ => true
  | .error _ => false

theorem get_payload_loop_ok (env : OEnv) (paths : List String) (acc : List Record)
    (h : ∀ q ∈ paths, isOkE (processDoc env q) = true) :
    get_payload_loop env acc paths = .ok (acc ++ paths.filterMap (successRecord env)) := by
  induction paths generalizing acc with
  | nil => simp [get_payload_loop]
  | cons p rest ih =>
      have hp : isOkE (processDoc env p) = true := h p (by simp)
      have hrest : ∀ q ∈ rest, isOkE (processDoc env q) = true :=
        fun q hq => h q (by simp [hq])
      have step : get_payload_loop env acc (p :: rest) =
          match processDoc env p with
          | .error e => .error e
          | .ok none => get_payload_loop env acc rest
          | .ok (some r) => get_payload_loop env (acc ++ [r]) rest := rfl
      rw [step]
      cases hpd : processDoc env p with
      | error e => rw [hpd] at hp; simp [isOkE] at hp
      | ok o =>
          cases o with
          | none => simp [List.filterMap_cons, successRecord, hpd, ih acc hrest]
          | some r =>
              simp [List.filterMap_cons, successRecord, hpd, ih (acc ++ [r]) hrest]

theorem length_filterMap_of_isSome {α β : Type} (f : α → Option β) (l : List α)
    (h : ∀ q ∈ l, (f q).isSome = true) : (l.filterMap f).length = l.length := by
  induction l with
  | nil => rfl
  | cons a rest ih =>
      have ha := h a (by simp)
      cases hfa : f a with
      | none => rw [hfa] at ha; simp at ha
      | some b =>
          simp [List.filterMap_cons, hfa, ih fun q hq => h q (by simp [hq])]

theorem getKey_set_invoice (payload : Record) (k : String) :
    getKey (set_invoice_normalize payload) k = (getKey payload k).map (normEntry k) := by
  induction payload with
  | nil => rfl
  | cons kv rest ih =>
      obtain ⟨k₀, v₀⟩ := kv
      by_cases h : k₀ = k
      · subst h
        simp [set_invoice_normalize, getKey]
      · simpa [set_invoice_normalize, getKey, h] using ih

theorem cleanBChars_no_confusable (l : List Char) :
    ∀ c ∈ cleanBChars l, c ≠ '|' ∧ c ≠ 'l' ∧ c ≠ 'O' := by
  intro c hc
  have hc' : c ∈ stripChars (((collapseChars l).map replChar).filter pyIsPrintable) := hc
  have : c ∈ (collapseChars l).map replChar :=
    List.mem_of_mem_filter (mem_stripChars_imp c _ hc')
  rcases List.mem_map.mp this with ⟨d, _, rfl⟩
  exact replChar_not_confusable d

/-!
The claims:
-/

/-- C4 (counterexample): a payload with no `paymentMethod` key at all is
not given the `"draft"` default by `set_invoice`'s normalization loop —
the loop only visits keys that exist, so the field stays absent. -/
theorem payment_method_missing_key_cex :
    getKey (set_invoice_normalize [("name", Value.str "ACME")]) "paymentMethod" = none
    ∧ getKey (set_invoice_normalize [("name", Value.str "ACME")]) "paymentMethod"
        ≠ some (Value.str "draft") := by
  have h0 : getKey (set_invoice_normalize [("name", Value.str "ACME")]) "paymentMethod"
      = none := rfl
  exact ⟨h0, by rw [h0]; intro h; exact Option.noConfusion h⟩

/-- C4 (amended): when `paymentMethod` is present and its value is the
sentinel string `"none"` or null, `set_invoice`'s normalization loop
rewrites it to `"draft"`; a record missing the key entirely is left
without it. -/
theorem payment_method_sentinel_defaults_draft (payload : Record) (v : Value)
    (hget : getKey payload "paymentMethod" = some v)
    (hv : v = Value.null ∨ v = Value.str "none") :
    getKey (set_invoice_normalize payload) "paymentMethod"
      = some (Value.str "draft") := by
  rw [getKey_set_invoice, hget]
  rcases hv with rfl | rfl
  · rfl
  · rfl

/-- Witness for C4's amended theorem at a concrete record. -/
theorem payment_method_sentinel_defaults_draft_witness :
    getKey [("paymentMethod", Value.null)] "paymentMethod" = some Value.null
    ∧ getKey (set_invoice_normalize [("paymentMethod", Value.null)]) "paymentMethod"
        = some (Value.str "draft") :=
  ⟨rfl, payment_method_sentinel_defaults_draft _ Value.null rfl (Or.inl rfl)⟩

/-- C9: `ocr_tool_anthropic.standardize_date` maps null, the empty
string and the sentinels `"none"`/`"null"` (case-insensitively) to the
absent marker, and does so identically for every parser — i.e. without
invoking the date parser. -/
theorem standardize_date_sentinel_absent (p q : String → Option SDate) (s : String)
    (hs : pyLower s = "none" ∨ pyLower s = "null" ∨ s = "") :
    standardize_date_a p (Value.str s) = .ok none
    ∧ standardize_date_a p Value.null = .ok none
    ∧ standardize_date_a p (Value.str s) = standardize_date_a q (Value.str s) := by
  have hcond : s = "" ∨ pyLower s ∈ (["none", "null", ""] : List String) := by
    rcases hs with h | h | h
    · exact Or.inr (by simp [h])
    · exact Or.inr (by simp [h])
    · exact Or.inl h
  refine ⟨?_, rfl, ?_⟩
  · simp only [standardize_date_a]
    rw [if_pos hcond]
  · simp only [standardize_date_a]
    rw [if_pos hcond, if_pos hcond]

/-- Witness for C9 at `"NULL"` and two parsers that differ everywhere. -/
theorem standardize_date_sentinel_absent_witness :
    (pyLower "NULL" = "none" ∨ pyLower "NULL" = "null" ∨ "NULL" = "")
    ∧ standardize_date_a (fun _ => none) (Value.str "NULL") = .ok none :=
  ⟨Or.inr (Or.inl (by decide)),
   (standardize_date_sentinel_absent (fun _ => none) (fun _ => some ⟨2000, 1, 1⟩)
      "NULL" (Or.inr (Or.inl (by decide)))).1⟩

/-- C5 (counterexample): the OCR text cleaner is not idempotent — a
non-printable character removed after whitespace collapsing leaves two
adjacent spaces, which a second pass collapses. -/
theorem ocr_clean_not_idempotent_cex :
    clean_text_a (clean_text_a "a \x01 b") ≠ clean_text_a "a \x01 b" := by
  decide

/-- C5 (amended): the plain whitespace-collapsing normalizer
`ocr_tool.clean_text` is idempotent on every string; the stricter OCR
variant `ocr_tool_anthropic.clean_text` is idempotent on every string
whose characters are all printable (but not in general). -/
theorem normalizer_idempotent (x y : String) (hy : y.data.all pyIsPrintable = true) :
    clean_text (clean_text x) = clean_text x
    ∧ clean_text_a (clean_text_a y) = clean_text_a y := by
  constructor
  · exact congrArg String.mk (cleanAChars_idem x.data)
  · by_cases hy0 : y = ""
    · subst hy0; rfl
    · have h1 : clean_text_a y = ⟨cleanBChars y.data⟩ := if_neg hy0
      rw [h1]
      by_cases hz : (⟨cleanBChars y.data⟩ : String) = ""
      · rw [clean_text_a, if_pos hz]
        exact hz.symm
      · rw [clean_text_a, if_neg hz]
        exact congrArg String.mk (cleanBChars_idem_of_printable y.data hy)

/-- Witness for C5's amended theorem at concrete strings. -/
theorem normalizer_idempotent_witness :
    (("a b" : String).data.all pyIsPrintable = true)
    ∧ clean_text (clean_text "x  y") = clean_text "x  y"
    ∧ clean_text_a (clean_text_a "a b") = clean_text_a "a b" := by
  refine ⟨by decide, ?_, ?_⟩
  · exact (normalizer_idempotent "x  y" "a b" (by decide)).1
  · exact (normalizer_idempotent "x  y" "a b" (by decide)).2

/-- C10 (counterexample): the OCR cleaner's output can contain an
interior whitespace run of length two — dropping a non-printable
character can bring two single spaces together after collapsing has
already run. -/
theorem ocr_clean_double_space_cex :
    clean_text_a "a \x01 b" = "a  b"
    ∧ noAdjWs (clean_text_a "a \x01 b").data = false := by
  constructor
  · decide
  · decide

/-- C10 (amended): the OCR cleaner's output contains no `'|'`, `'l'` or
`'O'`, no non-printable character, has no leading or trailing
whitespace, every whitespace character in it is the plain space `' '`
(though interior runs of more than one space can survive, as the
counterexample shows), and falsy input yields `""`. -/
theorem ocr_clean_output_invariants (x : String) :
    ((clean_text_a x).data.all fun c => !(c == '|' || c == 'l' || c == 'O')) = true
    ∧ ((clean_text_a x).data.all pyIsPrintable) = true
    ∧ headNotWs (clean_text_a x).data = true
    ∧ lastNotWs (clean_text_a x).data = true
    ∧ wsOnlySpace (clean_text_a x).data = true
    ∧ clean_text_a "" = "" := by
  by_cases hx : x = ""
  · subst hx
    exact ⟨rfl, rfl, rfl, rfl, rfl, rfl⟩
  · have hdata : (clean_text_a x).data = cleanBChars x.data := by
      rw [clean_text_a, if_neg hx]
    refine ⟨?_, ?_, ?_, ?_, ?_, rfl⟩
    · rw [hdata, List.all_eq_true]
      intro c hc
      obtain ⟨h1, h2, h3⟩ := cleanBChars_no_confusable x.data c hc
      simp [h1, h2, h3]
    · rw [hdata]
      exact cleanBChars_printable x.data
    · rw [hdata]
      exact headNotWs_stripChars _
    · rw [hdata]
      exact lastNotWs_stripChars _
    · rw [hdata]
      exact cleanBChars_wsOnlySpace x.data

/-- C1 (counterexample): in the Anthropic backend the top-level
`dateInvoiced` field of a parsed result is not standardized at all —
the post-parse normalization leaves the parseable string `"01.02.2023"`
verbatim even though `standardize_date` would canonicalize it. -/
theorem anthropic_top_level_date_not_standardized_cex :
    (anthropicPost [("dateInvoiced", Value.str "01.02.2023")] "p" "application/pdf"
        false).map (fun r => getKey r "dateInvoiced")
      = .ok (some (Value.str "01.02.2023"))
    ∧ parse_date "01.02.2023" = some ⟨2023, 2, 1⟩
    ∧ standardize_date_a parse_date (Value.str "01.02.2023") = .ok (some "2023-02-01")
    ∧ Value.str "01.02.2023" ≠ Value.str "2023-02-01" := by
  refine ⟨rfl, by decide, rfl, ?_⟩
  intro h
  injection h with h'
  exact absurd h' (by decide)

/-- C1 (amended): in the OpenAI backend every one of the four date
fields is overwritten with the output of `standardize_date`, which
canonicalizes parseable strings day-first (`"01.02.2023" ↦ "2023-02-01"`,
`"15/03/2024" ↦ "2024-03-15"`) and turns every string the parser cannot
interpret — and every absent or non-string value — into the sentinel
`"none"` without raising; in the Anthropic backend standardization is
applied only to fields nested under a top-level `dates` key, where parse
failures become null. -/
theorem openai_date_field_normalization (fd : Record) (path f : String)
    (hf : f ∈ dateFields) :
    getKey (openaiRecord fd path) f = some (Value.str (standardize_date (getKey fd f)))
    ∧ standardize_date (some (Value.str "01.02.2023")) = "2023-02-01"
    ∧ standardize_date (some (Value.str "15/03/2024")) = "2024-03-15"
    ∧ (∀ s : String, parse_date s = none →
        standardize_date (some (Value.str s)) = "none") := by
  refine ⟨?_, by decide, by decide, ?_⟩
  · have hexp : openaiRecord fd path = setKey
        (setKey
          (setKey
            (setKey
              (setKey fd "dateInvoiced"
                (Value.str (standardize_date (getKey fd "dateInvoiced"))))
              "dateOfReceiving"
              (Value.str (standardize_date (getKey
                (setKey fd "dateInvoiced"
                  (Value.str (standardize_date (getKey fd "dateInvoiced"))))
                "dateOfReceiving"))))
            "datePaid"
            (Value.str (standardize_date (getKey
              (setKey
                (setKey fd "dateInvoiced"
                  (Value.str (standardize_date (getKey fd "dateInvoiced"))))
                "dateOfReceiving"
                (Value.str (standardize_date (getKey
                  (setKey fd "dateInvoiced"
                    (Value.str (standardize_date (getKey fd "dateInvoiced"))))
                  "dateOfReceiving"))))
              "datePaid"))))
          "dueDate"
          (Value.str (standardize_date (getKey
            (setKey
              (setKey
                (setKey fd "dateInvoiced"
                  (Value.str (standardize_date (getKey fd "dateInvoiced"))))
                "dateOfReceiving"
                (Value.str (standardize_date (getKey
                  (setKey fd "dateInvoiced"
                    (Value.str (standardize_date (getKey fd "dateInvoiced"))))
                  "dateOfReceiving"))))
              "datePaid"
              (Value.str (standardize_date (getKey
                (setKey
                  (setKey fd "dateInvoiced"
                    (Value.str (standardize_date (getKey fd "dateInvoiced"))))
                  "dateOfReceiving"
                  (Value.str (standardize_date (getKey
                    (setKey fd "dateInvoiced"
                      (Value.str (standardize_date (getKey fd "dateInvoiced"))))
                    "dateOfReceiving"))))
                "datePaid"))))
            "dueDate"))))
        "path" (Value.str path) := rfl
    rw [hexp]
    simp only [dateFields, List.mem_cons, List.not_mem_nil, or_false] at hf
    rcases hf with rfl | rfl | rfl | rfl
    · rw [getKey_setKey_ne _ _ _ _ (by decide), getKey_setKey_ne _ _ _ _ (by decide),
          getKey_setKey_ne _ _ _ _ (by decide), getKey_setKey_ne _ _ _ _ (by decide),
          getKey_setKey_self]
    · rw [getKey_setKey_ne _ _ _ _ (by decide), getKey_setKey_ne _ _ _ _ (by decide),
          getKey_setKey_ne _ _ _ _ (by decide), getKey_setKey_self,
          getKey_setKey_ne _ _ _ _ (by decide)]
    · rw [getKey_setKey_ne _ _ _ _ (by decide), getKey_setKey_ne _ _ _ _ (by decide),
          getKey_setKey_self, getKey_setKey_ne _ _ _ _ (by decide),
          getKey_setKey_ne _ _ _ _ (by decide)]
    · rw [getKey_setKey_ne _ _ _ _ (by decide), getKey_setKey_self,
          getKey_setKey_ne _ _ _ _ (by decide), getKey_setKey_ne _ _ _ _ (by decide),
          getKey_setKey_ne _ _ _ _ (by decide)]
  · intro s hs
    simp only [standardize_date]
    by_cases h0 : s = ""
    · rw [if_pos h0]
    · rw [if_neg h0, hs]

/-- Witness for C1's amended theorem at a one-field record. -/
theorem openai_date_field_normalization_witness :
    ("dueDate" ∈ dateFields)
    ∧ getKey (openaiRecord [("dueDate", Value.str "15/03/2024")] "p") "dueDate"
        = some (Value.str "2024-03-15") := by
  refine ⟨by decide, ?_⟩
  have h := (openai_date_field_normalization [("dueDate", Value.str "15/03/2024")]
    "p" "dueDate" (by decide)).1
  rw [h]
  rfl

theorem normalizeDatesA_frame (raw r : Record) (h : normalizeDatesA raw = .ok r)
    (k : String) (hk : k ≠ "dates") : getKey r k = getKey raw k := by
  unfold normalizeDatesA at h
  split at h
  · injection h with h'
    subst h'
    rfl
  · split at h
    · exact absurd h (by simp)
    · injection h with h'
      subst h'
      exact getKey_setKey_ne _ _ _ _ (Ne.symm hk)
  · split at h
    · injection h with h'
      subst h'
      rfl
    · exact absurd h (by simp)
  · injection h with h'
    subst h'
    rfl
  · exact absurd h (by simp)
  · exact absurd h (by simp)

/-- C8: the Anthropic backend's post-parse normalization changes only
the `dates` key (standardizing its sub-fields) and adds the `_source`
metadata; every other field — in particular the four top-level date
fields — is returned exactly as the model produced it. -/
theorem anthropic_normalization_frame (raw out : Record) (path mt : String) (b : Bool)
    (h : anthropicPost raw path mt b = .ok out) :
    (∀ k, k ≠ "dates" → k ≠ "_source" → getKey out k = getKey raw k)
    ∧ getKey out "_source" = some (sourceMeta path mt b)
    ∧ getKey out "dateInvoiced" = getKey raw "dateInvoiced"
    ∧ getKey out "dateOfReceiving" = getKey raw "dateOfReceiving"
    ∧ getKey out "datePaid" = getKey raw "datePaid"
    ∧ getKey out "dueDate" = getKey raw "dueDate" := by
  unfold anthropicPost at h
  cases hn : normalizeDatesA raw with
  | error e => rw [hn] at h; simp [Except.map] at h
  | ok r =>
      rw [hn] at h
      simp only [Except.map] at h
      injection h with h'
      subst h'
      have frame : ∀ k, k ≠ "dates" → k ≠ "_source" →
          getKey (setKey r "_source" (sourceMeta path mt b)) k = getKey raw k := by
        intro k h1 h2
        rw [getKey_setKey_ne _ _ _ _ (Ne.symm h2), normalizeDatesA_frame raw r hn k h1]
      refine ⟨frame, getKey_setKey_self _ _ _, ?_, ?_, ?_, ?_⟩ <;>
        exact frame _ (by decide) (by decide)

/-- Witness for C8 at a record whose only field is a top-level date. -/
theorem anthropic_normalization_frame_witness :
    getKey (setKey [("dateInvoiced", Value.str "01.02.2023")] "_source"
        (sourceMeta "p" "application/pdf" false)) "dateInvoiced"
      = some (Value.str "01.02.2023") := by
  have h := anthropic_normalization_frame [("dateInvoiced", Value.str "01.02.2023")]
    (setKey [("dateInvoiced", Value.str "01.02.2023")] "_source"
      (sourceMeta "p" "application/pdf" false))
    "p" "application/pdf" false rfl
  exact (h.2.2.1).trans rfl

/-- The field set of the `extract_invoice_data` schema in `data.py`
(`FUNCTIONS[0].parameters.properties`), in declaration order. -/
def schemaKeys : List String :=
  ["name", "billingAddressCity", "billingAddressCountry", "billingAddressPostalCode",
   "billingAddressState", "billingAddressStreet", "constantSymbol", "dateInvoiced",
   "dateOfReceiving", "datePaid", "deliveryNotes", "dueDate", "duzp",
   "grandTotalAmount", "currency", "note", "originalNumber", "paymentMethod",
   "sicCode", "supplyCode", "taxAmount", "taxRate", "variableSymbol", "vatId",
   "weight", "amount", "invoiceItems"]

theorem keys_fold_setKey (fs : List String) (r : Record) (g : Record → String → Value)
    (h : ∀ f ∈ fs, f ∈ keys r) :
    keys (fs.foldl (fun r f => setKey r f (g r f)) r) = keys r := by
  induction fs generalizing r with
  | nil => rfl
  | cons f fs ih =>
      have hf : f ∈ keys r := h f (by simp)
      have hk : keys (setKey r f (g r f)) = keys r := keys_setKey_mem r f _ hf
      have hall : ∀ f' ∈ fs, f' ∈ keys (setKey r f (g r f)) := by
        intro f' hf'
        rw [hk]
        exact h f' (by simp [hf'])
      rw [List.foldl_cons, ih (setKey r f (g r f)) hall, hk]

/-- C7: when the raw extraction result carries exactly the schema's
field set (the shape `RawExtractionResult` is defined to have), the
normalized record of either backend carries exactly the schema's fields
plus the source link (`path` for the OpenAI backend, `_source` for the
Anthropic one), and the required keys `name` and `currency` are
present. -/
theorem invoice_record_schema_keys (raw : Record) (path mt : String) (b : Bool)
    (h : keys raw = schemaKeys) :
    keys (openaiRecord raw path) = schemaKeys ++ ["path"]
    ∧ "name" ∈ keys (openaiRecord raw path)
    ∧ "currency" ∈ keys (openaiRecord raw path)
    ∧ ∃ out, anthropicPost raw path mt b = .ok out
        ∧ keys out = schemaKeys ++ ["_source"]
        ∧ "name" ∈ keys out ∧ "currency" ∈ keys out := by
  have hdf : keys (dateFields.foldl
      (fun r f => setKey r f (Value.str (standardize_date (getKey r f)))) raw)
      = keys raw := by
    refine keys_fold_setKey dateFields raw _ ?_
    intro f hf
    rw [h]
    simp only [dateFields, List.mem_cons, List.not_mem_nil, or_false] at hf
    rcases hf with rfl | rfl | rfl | rfl <;> decide
  have hopen : keys (openaiRecord raw path) = schemaKeys ++ ["path"] := by
    unfold openaiRecord
    rw [keys_setKey_not_mem _ _ _ (by rw [hdf, h]; decide), hdf, h]
  have hdates : getKey raw "dates" = none :=
    getKey_eq_none_of_not_mem raw _ (by rw [h]; decide)
  have hnorm : normalizeDatesA raw = .ok raw := by
    unfold normalizeDatesA
    rw [hdates]
  have hpost : anthropicPost raw path mt b
      = .ok (setKey raw "_source" (sourceMeta path mt b)) := by
    unfold anthropicPost
    rw [hnorm]
    rfl
  have hakeys : keys (setKey raw "_source" (sourceMeta path mt b))
      = schemaKeys ++ ["_source"] := by
    rw [keys_setKey_not_mem _ _ _ (by rw [h]; decide), h]
  refine ⟨hopen, ?_, ?_, ⟨_, hpost, hakeys, ?_, ?_⟩⟩
  · rw [hopen]; decide
  · rw [hopen]; decide
  · rw [hakeys]; decide
  · rw [hakeys]; decide

/-- A concrete schema-shaped record, every field null. -/
def schemaNullRecord : Record := schemaKeys.map fun k => (k, Value.null)

/-- Witness for C7 at a concrete schema-shaped record. -/
theorem invoice_record_schema_keys_witness :
    keys schemaNullRecord = schemaKeys
    ∧ keys (openaiRecord schemaNullRecord "p") = schemaKeys ++ ["path"] :=
  ⟨rfl, (invoice_record_schema_keys schemaNullRecord "p" "application/pdf"
    false rfl).1⟩

/-- C6 (counterexample): in the Anthropic backend a page whose embedded
text is only `"Invoice #100"` (12 characters, below the 50-character
usability threshold) is OCR'd instead of contributing its embedded
text, so the two-page scenario of the claim does not produce
`"Invoice #100" ++ "\n" ++ ocr2`. -/
theorem anthropic_short_page_uses_ocr_cex :
    extract_text_from_pdf_a [⟨some "Invoice #100", "XY"⟩, ⟨none, "ZW"⟩] = "XY\nZW\n"
    ∧ extract_text_from_pdf_a [⟨some "Invoice #100", "XY"⟩, ⟨none, "ZW"⟩]
        ≠ "Invoice #100" ++ "\n" ++ ("ZW" ++ "\n")
    ∧ ¬("Invoice #100" ≠ "" ∧ 50 < (stripStr "Invoice #100").length) := by
  refine ⟨by decide, by decide, by decide⟩

/-- C6 (amended): both backends build the transcript as the
concatenation, in page order, of per-page contributions, each followed
by a newline — a page contributes its embedded text when that text
passes the backend's usability test (truthy for the OpenAI backend;
truthy and longer than 50 stripped characters for the Anthropic
backend) and its OCR output otherwise (cleaned first in the Anthropic
backend); the claim's two-page `"Invoice #100"` scenario holds in the
OpenAI backend. -/
theorem pdf_transcript_page_structure :
    (∀ pages : List PdfPage,
        extract_text_from_pdf pages = concatStrings (pages.map pageContrib))
    ∧ (∀ pages : List PdfPage,
        extract_text_from_pdf_a pages = concatStrings (pages.map pageContribA))
    ∧ ∀ o1 ocr2 : String,
        extract_text_from_pdf [⟨some "Invoice #100", o1⟩, ⟨none, ocr2⟩]
          = "Invoice #100" ++ "\n" ++ (ocr2 ++ "\n") := by
  refine ⟨extract_text_from_pdf_eq, extract_text_from_pdf_a_eq, ?_⟩
  intro o1 ocr2
  rw [extract_text_from_pdf_eq]
  show pageContrib ⟨some "Invoice #100", o1⟩ ++ (pageContrib ⟨none, ocr2⟩ ++ "") = _
  rw [String.append_empty]
  rfl

/-- A world in which `good.pdf` processes cleanly and `bad.pdf` raises
inside `pdfplumber`. -/
def cexEnv : OEnv where
  mime := fun p =>
    if p = "good.pdf" then .ok "application/pdf"
    else if p = "bad.pdf" then .ok "application/pdf"
    else .error (PyErr.err "nofile")
  pdfPages := fun p =>
    if p = "good.pdf" then .ok [⟨some "sometext", ""⟩]
    else .error (PyErr.err "pdfplumber io error")
  imageText := fun _ => .error (PyErr.err "unused")
  post := fun t =>
    if t = "sometext" then .ok ⟨200, .ok (some "ARGS")⟩
    else .error (PyErr.err "network")
  parseJson := fun a =>
    if a = "ARGS" then .ok [("name", Value.str "A"), ("currency", Value.str "EUR")]
    else .error (PyErr.err "json")

/-- C2 (counterexample): in the OpenAI backend an exception while
processing the second document propagates and aborts the whole batch —
the first document's already-computed record is lost — even though the
first document alone processes fine. -/
theorem openai_exception_aborts_batch_cex :
    get_payload cexEnv ["good.pdf", "bad.pdf"]
      = .error (PyErr.err "pdfplumber io error")
    ∧ get_payload cexEnv ["good.pdf"]
      = .ok [[("name", Value.str "A"), ("currency", Value.str "EUR"),
          ("dateInvoiced", Value.str "none"), ("dateOfReceiving", Value.str "none"),
          ("datePaid", Value.str "none"), ("dueDate", Value.str "none"),
          ("path", Value.str "good.pdf")]] := by
  exact ⟨rfl, rfl⟩

/-- C2 (amended): the Anthropic backend's driver (the one `main.py`
uses) isolates every per-document failure: with the API key present it
never raises, and its output is exactly the records of the
successfully processed documents, in input order, each document's
outcome depending only on that document; in the OpenAI backend a raised
exception aborts the whole batch instead. -/
theorem anthropic_driver_isolates_failures (env : AEnv) (paths : List String) :
    get_payload_a true env paths = .ok (paths.filterMap (successRecordA env)) := by
  show Except.ok (get_payload_a_loop env [] paths) = _
  rw [get_payload_a_loop_eq]
  simp

theorem exbind_ok {α β : Type} (a : α) (f : α → Except PyErr β) :
    (Except.ok a >>= f) = f a := rfl

/-- The extraction backend answered the Anthropic request for document
`p`, but the response carries no structured call: either no
`completion` attribute or no JSON object inside it.  This is the
`MalformedResponse` category of the spec. -/
def malformedA (env : AEnv) (p : String) : Prop :=
  ∃ mt ft ff text, env.mime p = .ok mt ∧ splitMime mt = .ok (ft, ff)
    ∧ acquireText env p ft ff = .ok (some text) ∧ stripStr text ≠ ""
    ∧ ∃ resp, env.completion (clean_text_a text) = .ok resp
        ∧ (resp.completion = none
           ∨ ∃ c, resp.completion = some c ∧ findJsonSpan c = none)

/-- The OpenAI request for `p` came back with status 200 but no
`function_call` in the assistant's reply. -/
def malformedO (env : OEnv) (p : String) : Prop :=
  ∃ mt ft ff text, env.mime p = .ok mt ∧ splitMime mt = .ok (ft, ff)
    ∧ acquireTextO env p ft ff = .ok (some text) ∧ text ≠ ""
    ∧ ∃ resp, env.post (clean_text text) = .ok resp ∧ resp.status = 200
        ∧ resp.message = .ok none

theorem malformedA_skips (env : AEnv) (p : String) (h : malformedA env p) :
    processDocA env p = .ok none := by
  obtain ⟨mt, ft, ff, text, hm, hs, ha, hne, resp, hc, hcase⟩ := h
  unfold processDocA
  simp only [hm, exbind_ok, hs, ha]
  unfold afterText
  rw [if_neg hne]
  simp only [hc, exbind_ok]
  rcases hcase with hnone | ⟨c, hcomp, hspan⟩
  · simp only [hnone]
    rfl
  · simp only [hcomp, hspan]
    rfl

theorem malformedO_skips (env : OEnv) (p : String) (h : malformedO env p) :
    processDoc env p = .ok none := by
  obtain ⟨mt, ft, ff, text, hm, hs, ha, hne, resp, hp, hstat, hmsg⟩ := h
  unfold processDoc
  simp only [hm, exbind_ok, hs, ha]
  rw [if_neg hne]
  simp only [hp, exbind_ok, hstat, if_pos rfl, hmsg]
  rfl

/-- C3: a document whose backend response lacks the structured call
(`MalformedResponse`) is skipped without aborting the batch in either
backend — when everything else succeeds, `N` input documents yield
`N − 1` output records, in input order. -/
theorem malformed_response_drops_one (envA : AEnv) (envO : OEnv)
    (xs ys : List String) (p : String)
    (hA : malformedA envA p)
    (hAs : ∀ q ∈ xs ++ ys, (successRecordA envA q).isSome = true)
    (hO : malformedO envO p)
    (hOs : ∀ q ∈ xs ++ ys, ∃ r, processDoc envO q = .ok (some r)) :
    (get_payload_a true envA (xs ++ p :: ys)).map List.length
      = .ok ((xs ++ p :: ys).length - 1)
    ∧ (get_payload envO (xs ++ p :: ys)).map List.length
      = .ok ((xs ++ p :: ys).length - 1) := by
  have hxs_len : ∀ l : List String, (∀ q ∈ l, (successRecordA envA q).isSome = true) →
      (l.filterMap (successRecordA envA)).length = l.length :=
    fun l hl => length_filterMap_of_isSome _ l hl
  constructor
  · have hskip : successRecordA envA p = none := by
      unfold successRecordA
      rw [malformedA_skips envA p hA]
    have h1 : get_payload_a true envA (xs ++ p :: ys)
        = .ok ((xs ++ p :: ys).filterMap (successRecordA envA)) := by
      show Except.ok (get_payload_a_loop envA [] (xs ++ p :: ys)) = _
      rw [get_payload_a_loop_eq]
      simp
    rw [h1]
    simp only [Except.map]
    have e1 : (xs ++ p :: ys).filterMap (successRecordA envA)
        = xs.filterMap (successRecordA envA) ++ ys.filterMap (successRecordA envA) := by
      simp [List.filterMap_append, List.filterMap_cons, hskip]
    rw [e1]
    have hx := hxs_len xs (fun q hq => hAs q (by simp [hq]))
    have hy := hxs_len ys (fun q hq => hAs q (by simp [hq]))
    simp only [List.length_append, List.length_cons, hx, hy]
    rfl
  · have hskipO : successRecord envO p = none := by
      unfold successRecord
      rw [malformedO_skips envO p hO]
    have hallok : ∀ q ∈ xs ++ p :: ys, isOkE (processDoc envO q) = true := by
      intro q hq
      rcases List.mem_append.mp hq with h' | h'
      · obtain ⟨r, hr⟩ := hOs q (by simp [h'])
        rw [hr]; rfl
      · rcases List.mem_cons.mp h' with rfl | h''
        · rw [malformedO_skips envO q hO]; rfl
        · obtain ⟨r, hr⟩ := hOs q (by simp [h''])
          rw [hr]; rfl
    have h1 : get_payload envO (xs ++ p :: ys)
        = .ok ((xs ++ p :: ys).filterMap (successRecord envO)) := by
      show get_payload_loop envO [] (xs ++ p :: ys) = _
      rw [get_payload_loop_ok envO _ [] hallok]
      simp
    rw [h1]
    simp only [Except.map]
    have e1 : (xs ++ p :: ys).filterMap (successRecord envO)
        = xs.filterMap (successRecord envO) ++ ys.filterMap (successRecord envO) := by
      simp [List.filterMap_append, List.filterMap_cons, hskipO]
    rw [e1]
    have hx := length_filterMap_of_isSome (successRecord envO) xs (by
      intro q hq
      obtain ⟨r, hr⟩ := hOs q (by simp [hq])
      unfold successRecord
      rw [hr]
      rfl)
    have hy := length_filterMap_of_isSome (successRecord envO) ys (by
      intro q hq
      obtain ⟨r, hr⟩ := hOs q (by simp [hq])
      unfold successRecord
      rw [hr]
      rfl)
    simp only [List.length_append, List.length_cons, hx, hy]
    rfl

/-- A world for the Anthropic backend in which image document `"g"`
succeeds and `"m"`'s completion contains no JSON object. -/
def witEnvA : AEnv where
  mime := fun p =>
    if p = "g" then .ok "image/png"
    else if p = "m" then .ok "image/png"
    else .error (PyErr.err "x")
  pdfPages := fun _ => .error (PyErr.err "x")
  imageText := fun p =>
    if p = "g" then .ok "WXYZ"
    else if p = "m" then .ok "MNPQ"
    else .error (PyErr.err "x")
  completion := fun t =>
    if t = "WXYZ" then .ok ⟨some "x\x7bJ\x7dy"⟩
    else if t = "MNPQ" then .ok ⟨some "no json here"⟩
    else .error (PyErr.err "x")
  parseJson := fun j =>
    if j = "\x7bJ\x7d" then .ok [("name", Value.str "G")]
    else .error (PyErr.err "x")

/-- The same world for the OpenAI backend: `"g"` succeeds, `"m"` gets a
200 response with no `function_call`. -/
def witEnvO : OEnv where
  mime := fun p =>
    if p = "g" then .ok "image/png"
    else if p = "m" then .ok "image/png"
    else .error (PyErr.err "x")
  pdfPages := fun _ => .error (PyErr.err "x")
  imageText := fun p =>
    if p = "g" then .ok "WXYZ"
    else if p = "m" then .ok "MNPQ"
    else .error (PyErr.err "x")
  post := fun t =>
    if t = "WXYZ" then .ok ⟨200, .ok (some "ARGS")⟩
    else if t = "MNPQ" then .ok ⟨200, .ok none⟩
    else .error (PyErr.err "x")
  parseJson := fun a =>
    if a = "ARGS" then .ok [("name", Value.str "G")]
    else .error (PyErr.err "x")

/-- Witness for C3: two documents, the second malformed, one record out. -/
theorem malformed_response_drops_one_witness :
    (get_payload_a true witEnvA ["g", "m"]).map List.length = .ok 1
    ∧ (get_payload witEnvO ["g", "m"]).map List.length = .ok 1 := by
  have h := malformed_response_drops_one witEnvA witEnvO ["g"] [] "m"
    ⟨"image/png", "image", "png", "MNPQ", rfl, rfl, rfl, by decide,
      ⟨some "no json here"⟩, rfl, Or.inr ⟨"no json here", rfl, rfl⟩⟩
    (by
      intro q hq
      have : q = "g" := by simpa using hq
      subst this
      rfl)
    ⟨"image/png", "image", "png", "MNPQ", rfl, rfl, rfl, by decide,
      ⟨200, .ok none⟩, rfl, rfl, rfl⟩
    (by
      intro q hq
      have : q = "g" := by simpa using hq
      subst this
      exact ⟨openaiRecord [("name", Value.str "G")] "g", rfl⟩)
  exact h
